import Mathlib

set_option maxRecDepth 16384

/-!
Verification of the encryption core and secrets controller of the
`encrytion-dashboard` repository (Express backend, `encryptionService.ts`
and `secretsController.ts`).

Plaintext strings are modelled as lists of Unicode scalar values, byte
strings and character strings as lists of natural numbers below 256
(resp. character codes).  The Node.js platform primitives the service is
built on (`Buffer.from(s, 'hex')`, `Buffer.toString('utf8')` and the
`aes-256-gcm` cipher of `node:crypto`) are not part of the repository;
they are modelled below from their documented behaviour and from the
specification's description of the AEAD contract, each marked by its doc
comment.  Everything else is a direct translation of the TypeScript
source.
-/

/-! ## Hex encoding and decoding (Node `Buffer` semantics) -/

/-- Value of one hex digit character code (0-9, a-f, A-F), `none` otherwise. -/
def hexDigitVal (c : Nat) : Option Nat :=
  if 48 ≤ c ∧ c ≤ 57 then some (c - 48)
  else if 97 ≤ c ∧ c ≤ 102 then some (c - 87)
  else if 65 ≤ c ∧ c ≤ 70 then some (c - 55)
  else none

/-- Lower-case hex digit character code for a value below 16. -/
def hexDigitChar (d : Nat) : Nat :=
  if d < 10 then 48 + d else 87 + d

/-- Hex encoding of a byte list, as produced by Node `Buffer.toString('hex')`:
two lower-case hex digits per byte. -/
def hexEncode : List Nat → List Nat
  | [] => []
  | b :: bs => hexDigitChar (b / 16) :: hexDigitChar (b % 16) :: hexEncode bs

/-- Modelled from the Node documentation of `Buffer.from(string, 'hex')`,
which the source uses to decode hex inputs: the string is decoded pairwise
and decoding stops at the first pair containing an invalid character (or at
a trailing lone character); it never throws. -/
def hexDecodeNode : List Nat → List Nat
  | c1 :: c2 :: rest =>
    match hexDigitVal c1, hexDigitVal c2 with
    | some h, some l => (16 * h + l) :: hexDecodeNode rest
    | _, _ => []
  | _ => []

/-- A character-code list is a well-formed hex string: even length, every
character a valid hex digit. -/
def IsHexStr (l : List Nat) : Prop :=
  l.length % 2 = 0 ∧ ∀ c ∈ l, (hexDigitVal c).isSome

/-! ## UTF-8 (Node string encoding / `Buffer.toString('utf8')`) -/

/-- A Unicode scalar value: below 0x110000 and not a surrogate. -/
def IsScalar (c : Nat) : Prop :=
  c < 1114112 ∧ (c < 55296 ∨ 57343 < c)

/-- UTF-8 encoding of one Unicode scalar value (1 to 4 bytes). -/
def encodeScalar (c : Nat) : List Nat :=
  if c < 128 then [c]
  else if c < 2048 then [192 + c / 64, 128 + c % 64]
  else if c < 65536 then [224 + c / 4096, 128 + c / 64 % 64, 128 + c % 64]
  else [240 + c / 262144, 128 + c / 4096 % 64, 128 + c / 64 % 64, 128 + c % 64]

/-- UTF-8 encoding of a list of Unicode scalar values, as performed by
`cipher.update(plaintext, 'utf8', ...)` on a JavaScript string. -/
def utf8Encode : List Nat → List Nat
  | [] => []
  | c :: cs => encodeScalar c ++ utf8Encode cs

/-- Modelled from the Node documentation of `Buffer.toString('utf8')`, which
the source uses to decode decrypted bytes: a validating UTF-8 decoder that
substitutes U+FFFD (65533) for ill-formed subsequences instead of throwing.
On well-formed input — the only case any theorem below depends on — it is
the exact inverse of `utf8Encode`; on ill-formed input it consumes the
offending bytes instead of resynchronising at them, an unobservable
simplification here. -/
def utf8DecodeLossy : List Nat → List Nat
  | [] => []
  | b :: rest =>
    if b < 128 then b :: utf8DecodeLossy rest
    else if b < 194 then 65533 :: utf8DecodeLossy rest
    else if b ≤ 223 then
      match rest with
      | b2 :: r2 =>
        if 128 ≤ b2 ∧ b2 ≤ 191 then
          ((b - 192) * 64 + (b2 - 128)) :: utf8DecodeLossy r2
        else 65533 :: utf8DecodeLossy r2
      | [] => [65533]
    else if b ≤ 239 then
      match rest with
      | b2 :: r2 =>
        if 128 ≤ b2 ∧ b2 ≤ 191 ∧ (b = 224 → 160 ≤ b2) ∧ (b = 237 → b2 ≤ 159) then
          match r2 with
          | b3 :: r3 =>
            if 128 ≤ b3 ∧ b3 ≤ 191 then
              ((b - 224) * 4096 + (b2 - 128) * 64 + (b3 - 128)) :: utf8DecodeLossy r3
            else 65533 :: utf8DecodeLossy r3
          | [] => [65533]
        else 65533 :: utf8DecodeLossy r2
      | [] => [65533]
    else if b ≤ 244 then
      match rest with
      | b2 :: r2 =>
        if 128 ≤ b2 ∧ b2 ≤ 191 ∧ (b = 240 → 144 ≤ b2) ∧ (b = 244 → b2 ≤ 143) then
          match r2 with
          | b3 :: r3 =>
            if 128 ≤ b3 ∧ b3 ≤ 191 then
              match r3 with
              | b4 :: r4 =>
                if 128 ≤ b4 ∧ b4 ≤ 191 then
                  ((b - 240) * 262144 + (b2 - 128) * 4096 + (b3 - 128) * 64 + (b4 - 128)) ::
                    utf8DecodeLossy r4
                else 65533 :: utf8DecodeLossy r4
              | [] => [65533]
            else 65533 :: utf8DecodeLossy r3
          | [] => [65533]
        else 65533 :: utf8DecodeLossy r2
      | [] => [65533]
    else 65533 :: utf8DecodeLossy rest

/-! ## The AEAD primitive

Modelled from the spec: the repository performs encryption through Node's
built-in `aes-256-gcm` cipher, whose implementation is not part of the
repository.  Following the spec's description ("256-bit-key, 128-bit-block,
Galois/Counter Mode": a keystream XORed over the plaintext, plus a 16-byte
polynomial authentication tag bound to key, nonce and ciphertext), the
cipher is modelled as a counter-mode keystream and a polynomial hash over
key ‖ nonce ‖ ciphertext evaluated modulo the odd 127-bit modulus `P`,
truncated to 16 bytes.  The polynomial structure mirrors GHASH; the AES
block computations are replaced by this executable arithmetic. -/

/-- Modulus of the polynomial authentication hash: an odd 127-bit number,
so that the radix 256 is invertible modulo `P` and tags fit in 16 bytes. -/
def P : Nat := 2 ^ 127 - 1

/-- Polynomial hash of a byte list in radix 256 modulo `P`
(`polyP [b0, b1, ...] = b0 * 256 + b1 * 256 ^ 2 + ... mod P`). -/
def polyP : List Nat → Nat
  | [] => 0
  | b :: r => 256 * (b + polyP r) % P

/-- One keystream byte: counter-mode evaluation of the keyed hash on
key ‖ nonce ‖ counter-block. -/
def ksByte (key nonce : List Nat) (i : Nat) : Nat :=
  polyP (key ++ nonce ++ [i % 256, i / 256 % 256, i / 65536 % 256, i / 16777216 % 256]) % 256

/-- The first `n` keystream bytes for a key and nonce. -/
def ksBytes (key nonce : List Nat) (n : Nat) : List Nat :=
  (List.range n).map (ksByte key nonce)

/-- Byte-wise XOR of two byte lists. -/
def xorBytes (a b : List Nat) : List Nat :=
  List.zipWith (fun x y => x ^^^ y) a b

/-- The 16 little-endian base-256 digits of a natural number below 2^128. -/
def natToBytes16 (n : Nat) : List Nat :=
  (List.range 16).map (fun i => n / 256 ^ i % 256)

/-- Reassemble a little-endian base-256 byte list into a natural number. -/
def bytesToNat : List Nat → Nat
  | [] => 0
  | b :: r => b + 256 * bytesToNat r

/-- The 16-byte authentication tag over key, nonce and ciphertext. -/
def gcmTag (key nonce ct : List Nat) : List Nat :=
  natToBytes16 (polyP (key ++ nonce ++ ct))

/-- Tag lengths accepted by Node's GCM `setAuthTag` when no explicit
`authTagLength` was passed to `createDecipheriv`: 128, 120, 112, 104, 96,
64 or 32 bits. -/
def AllowedTagLen (n : Nat) : Prop :=
  n = 16 ∨ n = 15 ∨ n = 14 ∨ n = 13 ∨ n = 12 ∨ n = 8 ∨ n = 4

instance : DecidablePred AllowedTagLen := fun n => by
  unfold AllowedTagLen; infer_instance

/-! ## The encryption service (`encryptionService.ts`) -/

/-- Error message thrown by `encrypt`'s catch clause (the spec's
`EncryptionError`). -/
def encFailMsg : String := "Failed to encrypt data"

/-- Error message thrown by `decrypt`'s catch clause (the spec's
`DecryptionError`). -/
def decFailMsg : String := "Failed to decrypt data - data may be corrupted or tampered"

/-- Error message for a missing `ENCRYPTION_KEY` (a `ConfigurationError`). -/
def keyMissingMsg : String := "ENCRYPTION_KEY is not set in environment variables"

/-- Error message for a wrong-length `ENCRYPTION_KEY` (a `ConfigurationError`). -/
def keyLengthMsg : String := "Encryption key must be 32 bytes (64 hex characters)"

/-- Character codes of a Lean string literal. -/
def strCodes (s : String) : List Nat := s.toList.map Char.toNat

/-- `EncryptionService.getEncryptionKey`: reads `process.env.ENCRYPTION_KEY`
(`none` = unset; the empty string is falsy in JavaScript, hence also treated
as missing), hex-decodes it with `Buffer.from(key, 'hex')` and requires the
decoded buffer to be exactly 32 bytes. -/
def getEncryptionKey (env : Option String) : Except String (List Nat) :=
  match env with
  | none => .error keyMissingMsg
  | some key =>
    if key = "" then .error keyMissingMsg
    else
      let keyBuffer := hexDecodeNode (strCodes key)
      if keyBuffer.length ≠ 32 then .error keyLengthMsg
      else .ok keyBuffer

/-- The `EncryptionResult` record returned by `encrypt`: three hex-encoded
character strings. -/
structure EncryptionResult where
  encryptedContent : List Nat
  iv : List Nat
  authTag : List Nat
deriving DecidableEq

/-- `EncryptionService.encrypt`: `crypto.randomBytes(16)` is passed in
explicitly as `iv`; `createCipheriv('aes-256-gcm', key, iv)` requires a
32-byte key and a nonempty IV (else it throws, caught and rethrown as
`encFailMsg`); the plaintext is UTF-8 encoded, XORed with the keystream,
and the ciphertext, IV and tag are returned hex-encoded. -/
def encrypt (key iv : List Nat) (plaintext : List Nat) : Except String EncryptionResult :=
  if key.length = 32 ∧ 1 ≤ iv.length then
    let ptBytes := utf8Encode plaintext
    let ct := xorBytes ptBytes (ksBytes key iv ptBytes.length)
    .ok ⟨hexEncode ct, hexEncode iv, hexEncode (gcmTag key iv ct)⟩
  else .error encFailMsg

/-- Core of `EncryptionService.decrypt` after hex decoding:
`createDecipheriv` requires a 32-byte key and nonempty IV, `setAuthTag`
requires an accepted tag length, and `decipher.final` verifies the supplied
tag against the recomputed tag (truncated to the supplied length); any
failure in the try block is caught and rethrown as `decFailMsg`. -/
def decryptBytes (key ct iv tag : List Nat) : Except String (List Nat) :=
  if key.length = 32 ∧ 1 ≤ iv.length ∧ AllowedTagLen tag.length ∧
      tag = (gcmTag key iv ct).take tag.length then
    .ok (utf8DecodeLossy (xorBytes ct (ksBytes key iv ct.length)))
  else .error decFailMsg

/-- `EncryptionService.decrypt`: hex-decodes the three inputs with
`Buffer.from(..., 'hex')` and runs authenticated decryption. -/
def decrypt (key ctHex ivHex tagHex : List Nat) : Except String (List Nat) :=
  decryptBytes key (hexDecodeNode ctHex) (hexDecodeNode ivHex) (hexDecodeNode tagHex)

/-! ## The secrets controller (`secretsController.ts`), read paths -/

/-- A stored row of the `secrets` table as selected by the controller. -/
structure SecretRecord where
  id : String
  name : Option String
  encrypted_content : List Nat
  iv : List Nat
  auth_tag : List Nat
  created_at : String
  updated_at : String
deriving DecidableEq

/-- One element of the controller's decrypted response payload. -/
structure SecretResponse where
  id : String
  name : String
  content : List Nat
  createdAt : String
  updatedAt : String
deriving DecidableEq

/-- JavaScript `secret.name || 'Untitled Secret'` (null and the empty
string are both falsy). -/
def displayName : Option String → String
  | some s => if s = "" then "Untitled Secret" else s
  | none => "Untitled Secret"

/-- The literal placeholder content `'[Decryption Error]'`, as scalar values. -/
def decErrContent : List Nat := strCodes "[Decryption Error]"

/-- The per-record mapping inside `getAllSecrets`: decrypt the record, and
on a decryption error catch it and substitute the placeholder content. -/
def toResponse (key : List Nat) (r : SecretRecord) : SecretResponse :=
  match decrypt key r.encrypted_content r.iv r.auth_tag with
  | .ok content => ⟨r.id, displayName r.name, content, r.created_at, r.updated_at⟩
  | .error _ => ⟨r.id, displayName r.name, decErrContent, r.created_at, r.updated_at⟩

/-- An HTTP response of the list endpoint (status, success flag, payload,
error message). -/
structure ListResponse where
  status : Nat
  success : Bool
  data : List SecretResponse
  error : Option String
deriving DecidableEq

/-- An HTTP response of the single-secret endpoint. -/
structure SingleResponse where
  status : Nat
  success : Bool
  data : Option SecretResponse
  error : Option String
deriving DecidableEq

/-- `getAllSecrets` on a successfully fetched list of rows: every row is
decrypted via `toResponse` (per-record try/catch) and returned with 200. -/
def getAllSecrets (key : List Nat) (records : List SecretRecord) : ListResponse :=
  ⟨200, true, records.map (toResponse key), none⟩

/-- `getSecretById` on a fetch result (`none` = row absent): a missing row
gives 404; otherwise the record is decrypted with NO per-record catch, so a
decryption failure propagates to the surrounding catch and produces the
generic 500 response. -/
def getSecretById (key : List Nat) (found : Option SecretRecord) : SingleResponse :=
  match found with
  | none => ⟨404, false, none, some "Secret not found"⟩
  | some r =>
    match decrypt key r.encrypted_content r.iv r.auth_tag with
    | .ok content =>
      ⟨200, true, some ⟨r.id, displayName r.name, content, r.created_at, r.updated_at⟩, none⟩
    | .error _ => ⟨500, false, none, some "Internal server error"⟩



/-! ## Byte-validity predicates -/

/-- Every entry of the list is a byte value. -/
def ValidBytes (l : List Nat) : Prop := ∀ b ∈ l, b < 256

/-- Every entry of the list is a Unicode scalar value. -/
def ValidScalars (l : List Nat) : Prop := ∀ c ∈ l, IsScalar c

instance (c : Nat) : Decidable (IsScalar c) := by
  unfold IsScalar; infer_instance

instance (l : List Nat) : Decidable (ValidBytes l) := by
  unfold ValidBytes; infer_instance

instance (l : List Nat) : Decidable (ValidScalars l) := by
  unfold ValidScalars; infer_instance

instance (l : List Nat) : Decidable (IsHexStr l) := by
  unfold IsHexStr; infer_instance

/-! ## Hex lemmas -/

theorem hexDigitVal_hexDigitChar {d : Nat} (hd : d < 16) :
    hexDigitVal (hexDigitChar d) = some d := by
  unfold hexDigitChar
  rcases Nat.lt_or_ge d 10 with h | h
  · rw [if_pos h]
    unfold hexDigitVal
    rw [if_pos (by omega)]
    congr 1
    omega
  · rw [if_neg (by omega)]
    unfold hexDigitVal
    rw [if_neg (by omega), if_pos (by omega)]
    congr 1
    omega

theorem hexDecodeNode_cons {c1 c2 : Nat} {h l : Nat} (rest : List Nat)
    (h1 : hexDigitVal c1 = some h) (h2 : hexDigitVal c2 = some l) :
    hexDecodeNode (c1 :: c2 :: rest) = (16 * h + l) :: hexDecodeNode rest := by
  rw [hexDecodeNode, h1, h2]

theorem hexDecode_hexEncode : ∀ {bs : List Nat}, ValidBytes bs →
    hexDecodeNode (hexEncode bs) = bs := by
  intro bs
  induction bs with
  | nil => intro _; rfl
  | cons b bs ih =>
    intro h
    have hb : b < 256 := h b (by simp)
    show hexDecodeNode (hexDigitChar (b / 16) :: hexDigitChar (b % 16) :: hexEncode bs) = _
    rw [hexDecodeNode_cons (hexEncode bs) (hexDigitVal_hexDigitChar (by omega))
      (hexDigitVal_hexDigitChar (by omega))]
    rw [ih (fun x hx => h x (by simp [hx]))]
    congr 1
    omega

theorem hexEncode_length (bs : List Nat) : (hexEncode bs).length = 2 * bs.length := by
  induction bs with
  | nil => rfl
  | cons b bs ih =>
    show (_ :: _ :: hexEncode bs).length = _
    simp [ih]
    omega

theorem hexEncode_isHexStr {bs : List Nat} (h : ValidBytes bs) : IsHexStr (hexEncode bs) := by
  constructor
  · rw [hexEncode_length]
    omega
  · induction bs with
    | nil => intro c hc; cases hc
    | cons b bs ih =>
      intro c hc
      have hb : b < 256 := h b (by simp)
      rw [show hexEncode (b :: bs) =
        hexDigitChar (b / 16) :: hexDigitChar (b % 16) :: hexEncode bs from rfl] at hc
      rcases List.mem_cons.mp hc with hc | hc
      · subst hc
        rw [hexDigitVal_hexDigitChar (show b / 16 < 16 by omega)]
        rfl
      · rcases List.mem_cons.mp hc with hc | hc
        · subst hc
          rw [hexDigitVal_hexDigitChar (show b % 16 < 16 by omega)]
          rfl
        · exact ih (fun x hx => h x (by simp [hx])) c hc

/-! ## UTF-8 lemmas -/

theorem encodeScalar_validBytes {c : Nat} (hc : c < 1114112) :
    ValidBytes (encodeScalar c) := by
  intro b hb
  unfold encodeScalar at hb
  rcases Nat.lt_or_ge c 128 with h1 | h1
  · rw [if_pos h1] at hb
    simp at hb
    omega
  · rw [if_neg (by omega)] at hb
    rcases Nat.lt_or_ge c 2048 with h2 | h2
    · rw [if_pos h2] at hb
      simp at hb
      rcases hb with hb | hb <;> omega
    · rw [if_neg (by omega)] at hb
      rcases Nat.lt_or_ge c 65536 with h3 | h3
      · rw [if_pos h3] at hb
        simp at hb
        rcases hb with hb | hb | hb <;> omega
      · rw [if_neg (by omega)] at hb
        simp at hb
        rcases hb with hb | hb | hb | hb <;> omega

theorem utf8Encode_validBytes : ∀ {s : List Nat}, ValidScalars s →
    ValidBytes (utf8Encode s) := by
  intro s
  induction s with
  | nil => intro _ b hb; cases hb
  | cons c cs ih =>
    intro h b hb
    rw [utf8Encode] at hb
    rcases List.mem_append.mp hb with hb | hb
    · exact encodeScalar_validBytes (h c (by simp)).1 b hb
    · exact ih (fun x hx => h x (by simp [hx])) b hb

theorem utf8d_one {b : Nat} (rest : List Nat) (h : b < 128) :
    utf8DecodeLossy (b :: rest) = b :: utf8DecodeLossy rest := by
  conv_lhs => rw [utf8DecodeLossy.eq_def]
  split
  next heq => exact absurd heq (by simp)
  next b9 r9 heq =>
    injection heq with e1 e2
    subst e1
    subst e2
    rw [if_pos h]

theorem utf8d_two {b b2 : Nat} (r2 : List Nat) (h1 : 194 ≤ b) (h2 : b ≤ 223)
    (h3 : 128 ≤ b2 ∧ b2 ≤ 191) :
    utf8DecodeLossy (b :: b2 :: r2) = ((b - 192) * 64 + (b2 - 128)) :: utf8DecodeLossy r2 := by
  conv_lhs => rw [utf8DecodeLossy.eq_def]
  split
  next heq => exact absurd heq (by simp)
  next b9 r9 heq =>
    injection heq with e1 e2
    subst e1
    subst e2
    rw [if_neg (by omega), if_neg (by omega), if_pos (by omega)]
    split
    next b8 r8 heq2 =>
      injection heq2 with e3 e4
      subst e3
      subst e4
      rw [if_pos h3]
    next heq2 => exact absurd heq2 (by simp)

theorem utf8d_three {b b2 b3 : Nat} (r3 : List Nat) (h1 : 224 ≤ b) (h2 : b ≤ 239)
    (h3 : 128 ≤ b2 ∧ b2 ≤ 191 ∧ (b = 224 → 160 ≤ b2) ∧ (b = 237 → b2 ≤ 159))
    (h4 : 128 ≤ b3 ∧ b3 ≤ 191) :
    utf8DecodeLossy (b :: b2 :: b3 :: r3) =
      ((b - 224) * 4096 + (b2 - 128) * 64 + (b3 - 128)) :: utf8DecodeLossy r3 := by
  conv_lhs => rw [utf8DecodeLossy.eq_def]
  split
  next heq => exact absurd heq (by simp)
  next b9 r9 heq =>
    injection heq with e1 e2
    subst e1
    subst e2
    rw [if_neg (by omega), if_neg (by omega), if_neg (by omega), if_pos (by omega)]
    split
    next b8 r8 heq2 =>
      injection heq2 with e3 e4
      subst e3
      subst e4
      rw [if_pos h3]
      split
      next b7 r7 heq3 =>
        injection heq3 with e5 e6
        subst e5
        subst e6
        rw [if_pos h4]
      next heq3 => exact absurd heq3 (by simp)
    next heq2 => exact absurd heq2 (by simp)

theorem utf8d_four {b b2 b3 b4 : Nat} (r4 : List Nat) (h1 : 240 ≤ b) (h2 : b ≤ 244)
    (h3 : 128 ≤ b2 ∧ b2 ≤ 191 ∧ (b = 240 → 144 ≤ b2) ∧ (b = 244 → b2 ≤ 143))
    (h4 : 128 ≤ b3 ∧ b3 ≤ 191) (h5 : 128 ≤ b4 ∧ b4 ≤ 191) :
    utf8DecodeLossy (b :: b2 :: b3 :: b4 :: r4) =
      ((b - 240) * 262144 + (b2 - 128) * 4096 + (b3 - 128) * 64 + (b4 - 128)) ::
        utf8DecodeLossy r4 := by
  conv_lhs => rw [utf8DecodeLossy.eq_def]
  split
  next heq => exact absurd heq (by simp)
  next b9 r9 heq =>
    injection heq with e1 e2
    subst e1
    subst e2
    rw [if_neg (by omega), if_neg (by omega), if_neg (by omega), if_neg (by omega),
      if_pos (by omega)]
    split
    next b8 r8 heq2 =>
      injection heq2 with e3 e4
      subst e3
      subst e4
      rw [if_pos h3]
      split
      next b7 r7 heq3 =>
        injection heq3 with e5 e6
        subst e5
        subst e6
        rw [if_pos h4]
        split
        next b6 r6 heq4 =>
          injection heq4 with e7 e8
          subst e7
          subst e8
          rw [if_pos h5]
        next heq4 => exact absurd heq4 (by simp)
      next heq3 => exact absurd heq3 (by simp)
    next heq2 => exact absurd heq2 (by simp)

theorem utf8DecodeLossy_encodeScalar {c : Nat} (hc : IsScalar c) (rest : List Nat) :
    utf8DecodeLossy (encodeScalar c ++ rest) = c :: utf8DecodeLossy rest := by
  obtain ⟨hlt, hsur⟩ := hc
  unfold encodeScalar
  rcases Nat.lt_or_ge c 128 with h1 | h1
  · rw [if_pos h1]
    show utf8DecodeLossy (c :: rest) = _
    rw [utf8d_one rest h1]
  · rw [if_neg (by omega)]
    rcases Nat.lt_or_ge c 2048 with h2 | h2
    · rw [if_pos h2]
      show utf8DecodeLossy (_ :: _ :: rest) = _
      rw [utf8d_two rest (by omega) (by omega) (by omega)]
      congr 1
      omega
    · rw [if_neg (by omega)]
      rcases Nat.lt_or_ge c 65536 with h3 | h3
      · rw [if_pos h3]
        show utf8DecodeLossy (_ :: _ :: _ :: rest) = _
        rw [utf8d_three rest (by omega) (by omega) (by omega) (by omega)]
        congr 1
        omega
      · rw [if_neg (by omega)]
        show utf8DecodeLossy (_ :: _ :: _ :: _ :: rest) = _
        rw [utf8d_four rest (by omega) (by omega) (by omega) (by omega) (by omega)]
        congr 1
        omega

theorem utf8_roundtrip : ∀ {s : List Nat}, ValidScalars s →
    utf8DecodeLossy (utf8Encode s) = s := by
  intro s
  induction s with
  | nil => intro _; rfl
  | cons c cs ih =>
    intro h
    rw [utf8Encode, utf8DecodeLossy_encodeScalar (h c (by simp)),
      ih (fun x hx => h x (by simp [hx]))]

/-! ## Arithmetic of the authentication hash -/

theorem P_pos : 0 < P := by norm_num [P]

theorem P_gt_256 : 256 < P := by norm_num [P]

theorem P_lt_2_128 : P < 2 ^ 128 := by norm_num [P]

theorem polyP_lt (l : List Nat) : polyP l < P := by
  cases l with
  | nil => exact P_pos
  | cons b r => exact Nat.mod_lt _ P_pos

/-- The authentication polynomial evaluated in `ZMod P`. -/
def polyZ : List Nat → ZMod P
  | [] => 0
  | b :: r => 256 * ((b : ZMod P) + polyZ r)

theorem polyP_cast (l : List Nat) : ((polyP l : Nat) : ZMod P) = polyZ l := by
  induction l with
  | nil => rfl
  | cons b r ih =>
    show (((256 * (b + polyP r) % P : Nat)) : ZMod P) = 256 * ((b : ZMod P) + polyZ r)
    rw [ZMod.natCast_mod]
    push_cast
    rw [ih]

theorem polyZ_single_change (a : List Nat) (b b' : Nat) (c : List Nat) :
    polyZ (a ++ b :: c) - polyZ (a ++ b' :: c) =
      256 ^ (a.length + 1) * ((b : ZMod P) - (b' : ZMod P)) := by
  induction a with
  | nil =>
    show 256 * ((b : ZMod P) + polyZ c) - 256 * ((b' : ZMod P) + polyZ c) = _
    simp only [List.length_nil]
    ring
  | cons x a ih =>
    show 256 * ((x : ZMod P) + polyZ (a ++ b :: c)) -
        256 * ((x : ZMod P) + polyZ (a ++ b' :: c)) = _
    have h : 256 * ((x : ZMod P) + polyZ (a ++ b :: c)) -
        256 * ((x : ZMod P) + polyZ (a ++ b' :: c)) =
        256 * (polyZ (a ++ b :: c) - polyZ (a ++ b' :: c)) := by ring
    rw [h, ih]
    simp only [List.length_cons]
    ring

theorem isUnit_256_zmodP : IsUnit ((256 : ZMod P)) := by
  have h1 : ((2 : ZMod P)) ^ 127 = 1 := by
    have h2 : ((2 : ZMod P)) ^ 127 = ((2 ^ 127 : Nat) : ZMod P) := by push_cast; ring
    rw [h2, show (2 ^ 127 : Nat) = P + 1 by norm_num [P]]
    push_cast [ZMod.natCast_self]
    norm_num
  have h256 : (256 : ZMod P) = (2 : ZMod P) ^ 8 := by norm_num
  refine isUnit_of_mul_eq_one _ ((2 : ZMod P) ^ 119) ?_
  rw [h256, ← pow_add]
  exact h1

theorem polyP_ne_single_change {a c : List Nat} {b b' : Nat}
    (hb : b < 256) (hb' : b' < 256) (hne : b ≠ b') :
    polyP (a ++ b :: c) ≠ polyP (a ++ b' :: c) := by
  intro h
  have hz : polyZ (a ++ b :: c) = polyZ (a ++ b' :: c) := by
    rw [← polyP_cast, ← polyP_cast, h]
  have hsub : (256 : ZMod P) ^ (a.length + 1) * ((b : ZMod P) - (b' : ZMod P)) = 0 := by
    rw [← polyZ_single_change, hz, sub_self]
  have hu : IsUnit ((256 : ZMod P) ^ (a.length + 1)) := isUnit_256_zmodP.pow _
  rw [hu.mul_right_eq_zero, sub_eq_zero, ZMod.natCast_eq_natCast_iff'] at hsub
  rw [Nat.mod_eq_of_lt (lt_trans hb P_gt_256), Nat.mod_eq_of_lt (lt_trans hb' P_gt_256)] at hsub
  exact hne hsub

/-! ## Byte-vector lemmas -/

theorem bytesToNat_digits : ∀ (k n : Nat), n < 256 ^ k →
    bytesToNat ((List.range k).map (fun i => n / 256 ^ i % 256)) = n := by
  intro k
  induction k with
  | zero =>
    intro n hn
    simp at hn
    simp [hn, bytesToNat]
  | succ k ih =>
    intro n hn
    rw [List.range_succ_eq_map]
    simp only [List.map_cons, List.map_map]
    show bytesToNat ((n / 256 ^ 0 % 256) :: _) = n
    rw [bytesToNat]
    have hmap : (List.range k).map ((fun i => n / 256 ^ i % 256) ∘ Nat.succ) =
        (List.range k).map (fun i => (n / 256) / 256 ^ i % 256) := by
      refine List.map_congr_left ?_
      intro i _
      show n / 256 ^ (i + 1) % 256 = n / 256 / 256 ^ i % 256
      rw [pow_succ, mul_comm, Nat.div_div_eq_div_mul]
    rw [hmap, ih (n / 256) (by rw [pow_succ] at hn; omega)]
    simp
    omega

theorem bytesToNat_natToBytes16 {n : Nat} (hn : n < 2 ^ 128) :
    bytesToNat (natToBytes16 n) = n := by
  have h : (256 : Nat) ^ 16 = 2 ^ 128 := by norm_num
  exact bytesToNat_digits 16 n (by omega)

theorem natToBytes16_inj {m n : Nat} (hm : m < 2 ^ 128) (hn : n < 2 ^ 128)
    (h : natToBytes16 m = natToBytes16 n) : m = n := by
  rw [← bytesToNat_natToBytes16 hm, ← bytesToNat_natToBytes16 hn, h]

theorem natToBytes16_length (n : Nat) : (natToBytes16 n).length = 16 := by
  simp [natToBytes16]

theorem natToBytes16_validBytes (n : Nat) : ValidBytes (natToBytes16 n) := by
  intro b hb
  simp [natToBytes16] at hb
  obtain ⟨i, _, hi⟩ := hb
  omega

theorem gcmTag_length (key nonce ct : List Nat) : (gcmTag key nonce ct).length = 16 :=
  natToBytes16_length _

theorem gcmTag_validBytes (key nonce ct : List Nat) : ValidBytes (gcmTag key nonce ct) :=
  natToBytes16_validBytes _

theorem gcmTag_ne_of_polyP_ne {key nonce ct nonce' ct' : List Nat}
    (h : polyP (key ++ nonce ++ ct) ≠ polyP (key ++ nonce' ++ ct')) :
    gcmTag key nonce ct ≠ gcmTag key nonce' ct' := by
  intro he
  exact h (natToBytes16_inj (lt_trans (polyP_lt _) P_lt_2_128)
    (lt_trans (polyP_lt _) P_lt_2_128) he)

/-! ## Keystream and XOR lemmas -/

theorem byte_xor_lt {a b : Nat} (ha : a < 256) (hb : b < 256) : a ^^^ b < 256 := by
  have h : a ^^^ b < 2 ^ 8 := Nat.bitwise_lt_two_pow (by omega) (by omega)
  omega

theorem xorBytes_length (a b : List Nat) : (xorBytes a b).length = min a.length b.length := by
  simp [xorBytes]

theorem xorBytes_cancel : ∀ (a b : List Nat), a.length = b.length →
    xorBytes (xorBytes a b) b = a := by
  intro a
  induction a with
  | nil => intro b _; rfl
  | cons x a ih =>
    intro b h
    cases b with
    | nil => simp at h
    | cons y bs =>
      show ((x ^^^ y) ^^^ y) :: xorBytes (xorBytes a bs) bs = x :: a
      rw [Nat.xor_cancel_right, ih bs (by simpa using h)]

theorem xorBytes_validBytes : ∀ {a b : List Nat}, ValidBytes a → ValidBytes b →
    ValidBytes (xorBytes a b) := by
  intro a
  induction a with
  | nil => intro b _ _ x hx; cases hx
  | cons x a ih =>
    intro b ha hb c hc
    cases b with
    | nil => cases hc
    | cons y bs =>
      rcases List.mem_cons.mp hc with hc | hc
      · subst hc
        exact byte_xor_lt (ha x (by simp)) (hb y (by simp))
      · exact ih (fun z hz => ha z (by simp [hz])) (fun z hz => hb z (by simp [hz])) c hc

theorem ksBytes_length (key nonce : List Nat) (n : Nat) : (ksBytes key nonce n).length = n := by
  simp [ksBytes]

theorem ksBytes_validBytes (key nonce : List Nat) (n : Nat) :
    ValidBytes (ksBytes key nonce n) := by
  intro b hb
  simp only [ksBytes, List.mem_map] at hb
  obtain ⟨i, _, rfl⟩ := hb
  exact Nat.mod_lt _ (by norm_num)

theorem getD_lt_256 {l : List Nat} (h : ValidBytes l) (t : Nat) : l.getD t 0 < 256 := by
  rcases Nat.lt_or_ge t l.length with ht | ht
  · rw [List.getD_eq_getElem?_getD, List.getElem?_eq_getElem ht]
    exact h _ (List.getElem_mem ht)
  · rw [List.getD_eq_getElem?_getD, List.getElem?_eq_none (by omega)]
    norm_num

/-! ## Single-byte tampering changes the tag -/

theorem gcmTag_ne_ct_set {key nonce ct : List Nat} (hct : ValidBytes ct) {t b' : Nat}
    (ht : t < ct.length) (hb' : b' < 256) (hne : b' ≠ ct.getD t 0) :
    gcmTag key nonce (ct.set t b') ≠ gcmTag key nonce ct := by
  apply gcmTag_ne_of_polyP_ne
  have hgetd : ct.getD t 0 = ct[t] := by
    rw [List.getD_eq_getElem?_getD, List.getElem?_eq_getElem ht]
    rfl
  have e1 : key ++ nonce ++ ct.set t b' =
      (key ++ nonce ++ ct.take t) ++ b' :: ct.drop (t + 1) := by
    rw [List.set_eq_take_cons_drop b' ht]
    simp only [List.append_assoc, List.cons_append]
  have e2 : key ++ nonce ++ ct =
      (key ++ nonce ++ ct.take t) ++ ct.getD t 0 :: ct.drop (t + 1) := by
    conv_lhs => rw [← List.take_append_drop t ct, List.drop_eq_getElem_cons ht]
    rw [hgetd]
    simp only [List.append_assoc, List.cons_append]
  rw [e1, e2]
  exact polyP_ne_single_change hb' (getD_lt_256 hct t) hne

theorem gcmTag_ne_nonce_set {key nonce ct : List Nat} (hn : ValidBytes nonce) {t b' : Nat}
    (ht : t < nonce.length) (hb' : b' < 256) (hne : b' ≠ nonce.getD t 0) :
    gcmTag key (nonce.set t b') ct ≠ gcmTag key nonce ct := by
  apply gcmTag_ne_of_polyP_ne
  have hgetd : nonce.getD t 0 = nonce[t] := by
    rw [List.getD_eq_getElem?_getD, List.getElem?_eq_getElem ht]
    rfl
  have e1 : key ++ nonce.set t b' ++ ct =
      (key ++ nonce.take t) ++ b' :: (nonce.drop (t + 1) ++ ct) := by
    rw [List.set_eq_take_cons_drop b' ht]
    simp only [List.append_assoc, List.cons_append]
  have e2 : key ++ nonce ++ ct =
      (key ++ nonce.take t) ++ nonce.getD t 0 :: (nonce.drop (t + 1) ++ ct) := by
    conv_lhs => rw [← List.take_append_drop t nonce, List.drop_eq_getElem_cons ht]
    rw [hgetd]
    simp only [List.append_assoc, List.cons_append]
  rw [e1, e2]
  exact polyP_ne_single_change hb' (getD_lt_256 hn t) hne

/-! ## Bit flipping -/

/-- Flip bit `j` of the byte at position `t`. -/
def flipByteAt (l : List Nat) (t j : Nat) : List Nat :=
  l.set t (l.getD t 0 ^^^ 2 ^ j)

theorem two_pow_lt_256 {j : Nat} (hj : j < 8) : 2 ^ j < 256 := by
  calc 2 ^ j ≤ 2 ^ 7 := Nat.pow_le_pow_right (by norm_num) (by omega)
  _ < 256 := by norm_num

theorem flip_ne_self {a j : Nat} : a ^^^ 2 ^ j ≠ a := by
  intro h
  have h2 : a ^^^ (a ^^^ 2 ^ j) = a ^^^ a := by rw [h]
  rw [Nat.xor_cancel_left, Nat.xor_self] at h2
  exact absurd h2 (Nat.pos_iff_ne_zero.mp (Nat.pos_pow_of_pos j (by norm_num)))

theorem flipByteAt_length (l : List Nat) (t j : Nat) :
    (flipByteAt l t j).length = l.length := by
  simp [flipByteAt]

theorem flipByteAt_validBytes {l : List Nat} (h : ValidBytes l) (t : Nat) {j : Nat}
    (hj : j < 8) : ValidBytes (flipByteAt l t j) := by
  intro b hb
  unfold flipByteAt at hb
  rcases List.mem_or_eq_of_mem_set hb with hb | hb
  · exact h b hb
  · subst hb
    exact byte_xor_lt (getD_lt_256 h t) (two_pow_lt_256 hj)

theorem getD_set_self {l : List Nat} {t : Nat} (v : Nat) (ht : t < l.length) :
    (l.set t v).getD t 0 = v := by
  rw [List.getD_eq_getElem?_getD, List.getElem?_set_self ht]
  rfl

theorem flipByteAt_ne_self {l : List Nat} {t : Nat} (ht : t < l.length) (j : Nat) :
    flipByteAt l t j ≠ l := by
  intro h
  have h2 := congrArg (fun x => x.getD t 0) h
  simp only [flipByteAt] at h2
  rw [getD_set_self _ ht] at h2
  exact flip_ne_self h2

/-! ## Service-level lemmas -/

/-- The ciphertext bytes produced by `encrypt key iv pt`. -/
def ctOf (key iv pt : List Nat) : List Nat :=
  xorBytes (utf8Encode pt) (ksBytes key iv (utf8Encode pt).length)

/-- The envelope produced by a successful `encrypt key iv pt`. -/
def envelopeOf (key iv pt : List Nat) : EncryptionResult :=
  ⟨hexEncode (ctOf key iv pt), hexEncode iv, hexEncode (gcmTag key iv (ctOf key iv pt))⟩

theorem encrypt_ok {key iv : List Nat} (pt : List Nat) (hk : key.length = 32)
    (hiv : 1 ≤ iv.length) : encrypt key iv pt = .ok (envelopeOf key iv pt) := by
  unfold encrypt envelopeOf ctOf
  rw [if_pos ⟨hk, hiv⟩]

theorem ctOf_length (key iv pt : List Nat) :
    (ctOf key iv pt).length = (utf8Encode pt).length := by
  rw [ctOf, xorBytes_length, ksBytes_length, Nat.min_self]

theorem ctOf_validBytes (key iv : List Nat) {pt : List Nat} (hs : ValidScalars pt) :
    ValidBytes (ctOf key iv pt) :=
  xorBytes_validBytes (utf8Encode_validBytes hs) (ksBytes_validBytes key iv _)

theorem decryptBytes_ok {key ct iv tag : List Nat} (hk : key.length = 32)
    (hiv : 1 ≤ iv.length) (htl : AllowedTagLen tag.length)
    (htag : tag = (gcmTag key iv ct).take tag.length) :
    decryptBytes key ct iv tag =
      .ok (utf8DecodeLossy (xorBytes ct (ksBytes key iv ct.length))) := by
  unfold decryptBytes
  rw [if_pos ⟨hk, hiv, htl, htag⟩]

theorem decryptBytes_error {key ct iv tag : List Nat}
    (h : ¬(key.length = 32 ∧ 1 ≤ iv.length ∧ AllowedTagLen tag.length ∧
      tag = (gcmTag key iv ct).take tag.length)) :
    decryptBytes key ct iv tag = .error decFailMsg := by
  unfold decryptBytes
  rw [if_neg h]

theorem decryptBytes_error_of_tag_ne {key ct iv tag : List Nat}
    (h : tag ≠ (gcmTag key iv ct).take tag.length) :
    decryptBytes key ct iv tag = .error decFailMsg :=
  decryptBytes_error (fun hc => h hc.2.2.2)

theorem decrypt_error_unique {key a b c : List Nat} {e : String}
    (h : decrypt key a b c = .error e) : e = decFailMsg := by
  unfold decrypt decryptBytes at h
  by_cases hc : (key.length = 32 ∧ 1 ≤ (hexDecodeNode b).length ∧
      AllowedTagLen (hexDecodeNode c).length ∧ hexDecodeNode c =
        (gcmTag key (hexDecodeNode b) (hexDecodeNode a)).take (hexDecodeNode c).length)
  · rw [if_pos hc] at h
    cases h
  · rw [if_neg hc] at h
    cases h
    rfl

theorem decrypt_ok_or_error (key a b c : List Nat) :
    (∃ pt, decrypt key a b c = .ok pt) ∨ decrypt key a b c = .error decFailMsg := by
  unfold decrypt decryptBytes
  by_cases hc : (key.length = 32 ∧ 1 ≤ (hexDecodeNode b).length ∧
      AllowedTagLen (hexDecodeNode c).length ∧ hexDecodeNode c =
        (gcmTag key (hexDecodeNode b) (hexDecodeNode a)).take (hexDecodeNode c).length)
  · rw [if_pos hc]
    exact Or.inl ⟨_, rfl⟩
  · rw [if_neg hc]
    exact Or.inr rfl

theorem decrypt_error_iff {key : List Nat} (hk : key.length = 32) (a b c : List Nat) :
    decrypt key a b c = .error decFailMsg ↔
      ¬(1 ≤ (hexDecodeNode b).length ∧ AllowedTagLen (hexDecodeNode c).length ∧
        hexDecodeNode c =
          (gcmTag key (hexDecodeNode b) (hexDecodeNode a)).take (hexDecodeNode c).length) := by
  unfold decrypt decryptBytes
  by_cases hc : (1 ≤ (hexDecodeNode b).length ∧ AllowedTagLen (hexDecodeNode c).length ∧
      hexDecodeNode c =
        (gcmTag key (hexDecodeNode b) (hexDecodeNode a)).take (hexDecodeNode c).length)
  · rw [if_pos ⟨hk, hc⟩]
    constructor
    · intro h
      exact Except.noConfusion h
    · intro h
      exact absurd hc h
  · rw [if_neg (fun hx => hc hx.2)]
    constructor
    · intro _
      exact hc
    · intro _
      rfl

theorem decrypt_envelope {key iv : List Nat} (pt : List Nat) (hk : key.length = 32)
    (hiv : iv.length = 16) (hivb : ValidBytes iv) (hs : ValidScalars pt) :
    decrypt key (envelopeOf key iv pt).encryptedContent (envelopeOf key iv pt).iv
      (envelopeOf key iv pt).authTag = .ok pt := by
  unfold decrypt envelopeOf
  simp only
  rw [hexDecode_hexEncode (ctOf_validBytes key iv hs), hexDecode_hexEncode hivb,
    hexDecode_hexEncode (gcmTag_validBytes key iv _)]
  rw [decryptBytes_ok hk (by omega) (by rw [gcmTag_length]; exact Or.inl rfl)
    (by rw [List.take_length])]
  rw [ctOf_length]
  show _ = Except.ok pt
  rw [show xorBytes (ctOf key iv pt) (ksBytes key iv (utf8Encode pt).length) =
      utf8Encode pt from ?_]
  · rw [utf8_roundtrip hs]
  · rw [ctOf]
    exact xorBytes_cancel _ _ (by rw [ksBytes_length])

/-! ## Decryption of tampered envelopes fails -/

theorem take16_gcmTag (key iv ct : List Nat) :
    (gcmTag key iv ct).take 16 = gcmTag key iv ct := by
  conv_lhs => rw [show (16 : Nat) = (gcmTag key iv ct).length from (gcmTag_length key iv ct).symm]
  exact List.take_length _

theorem decrypt_flipped_ct {key iv pt : List Nat}
    (hivb : ValidBytes iv) (hs : ValidScalars pt) {t j : Nat}
    (ht : t < (ctOf key iv pt).length) (hj : j < 8) :
    decrypt key (hexEncode (flipByteAt (ctOf key iv pt) t j)) (envelopeOf key iv pt).iv
      (envelopeOf key iv pt).authTag = .error decFailMsg := by
  unfold decrypt envelopeOf
  simp only
  rw [hexDecode_hexEncode (flipByteAt_validBytes (ctOf_validBytes key iv hs) t hj),
    hexDecode_hexEncode hivb, hexDecode_hexEncode (gcmTag_validBytes key iv _)]
  apply decryptBytes_error_of_tag_ne
  rw [gcmTag_length, take16_gcmTag]
  refine Ne.symm ?_
  unfold flipByteAt
  exact gcmTag_ne_ct_set (ctOf_validBytes key iv hs) ht
    (byte_xor_lt (getD_lt_256 (ctOf_validBytes key iv hs) t) (two_pow_lt_256 hj))
    flip_ne_self

theorem decrypt_flipped_nonce {key iv pt : List Nat}
    (hivb : ValidBytes iv) (hs : ValidScalars pt) {t j : Nat}
    (ht : t < iv.length) (hj : j < 8) :
    decrypt key (envelopeOf key iv pt).encryptedContent (hexEncode (flipByteAt iv t j))
      (envelopeOf key iv pt).authTag = .error decFailMsg := by
  unfold decrypt envelopeOf
  simp only
  rw [hexDecode_hexEncode (flipByteAt_validBytes hivb t hj),
    hexDecode_hexEncode (ctOf_validBytes key iv hs),
    hexDecode_hexEncode (gcmTag_validBytes key iv _)]
  apply decryptBytes_error_of_tag_ne
  rw [gcmTag_length, take16_gcmTag]
  refine Ne.symm ?_
  unfold flipByteAt
  exact gcmTag_ne_nonce_set hivb ht
    (byte_xor_lt (getD_lt_256 hivb t) (two_pow_lt_256 hj))
    flip_ne_self

theorem decrypt_flipped_tag {key iv pt : List Nat}
    (hivb : ValidBytes iv) (hs : ValidScalars pt) {t j : Nat}
    (ht : t < 16) (hj : j < 8) :
    decrypt key (envelopeOf key iv pt).encryptedContent (envelopeOf key iv pt).iv
      (hexEncode (flipByteAt (gcmTag key iv (ctOf key iv pt)) t j)) = .error decFailMsg := by
  unfold decrypt envelopeOf
  simp only
  have ht' : t < (gcmTag key iv (ctOf key iv pt)).length := by rw [gcmTag_length]; omega
  rw [hexDecode_hexEncode (flipByteAt_validBytes (gcmTag_validBytes key iv _) t hj),
    hexDecode_hexEncode (ctOf_validBytes key iv hs),
    hexDecode_hexEncode (hivb)]
  apply decryptBytes_error_of_tag_ne
  rw [flipByteAt_length, gcmTag_length, take16_gcmTag]
  exact flipByteAt_ne_self ht' j

/-! ## Key-loading lemmas -/

theorem getEncryptionKey_some_ok {s : String} (hs : s ≠ "")
    (hlen : (hexDecodeNode (strCodes s)).length = 32) :
    getEncryptionKey (some s) = .ok (hexDecodeNode (strCodes s)) := by
  show (if s = "" then Except.error keyMissingMsg
    else if (hexDecodeNode (strCodes s)).length ≠ 32 then Except.error keyLengthMsg
    else Except.ok (hexDecodeNode (strCodes s))) = _
  rw [if_neg hs, if_neg (by omega)]

theorem getEncryptionKey_some_error {s : String} (hs : s ≠ "")
    (hlen : (hexDecodeNode (strCodes s)).length ≠ 32) :
    getEncryptionKey (some s) = .error keyLengthMsg := by
  show (if s = "" then Except.error keyMissingMsg
    else if (hexDecodeNode (strCodes s)).length ≠ 32 then Except.error keyLengthMsg
    else Except.ok (hexDecodeNode (strCodes s))) = _
  rw [if_neg hs, if_pos hlen]

/-! ## Controller lemmas -/

theorem toResponse_of_ok {key : List Nat} {r : SecretRecord} {pt : List Nat}
    (h : decrypt key r.encrypted_content r.iv r.auth_tag = .ok pt) :
    toResponse key r = ⟨r.id, displayName r.name, pt, r.created_at, r.updated_at⟩ := by
  unfold toResponse
  rw [h]

theorem toResponse_of_error {key : List Nat} {r : SecretRecord} {e : String}
    (h : decrypt key r.encrypted_content r.iv r.auth_tag = .error e) :
    toResponse key r = ⟨r.id, displayName r.name, decErrContent, r.created_at, r.updated_at⟩ := by
  unfold toResponse
  rw [h]

theorem getAllSecrets_data (key : List Nat) (rs : List SecretRecord) (i : Nat) :
    (getAllSecrets key rs).data[i]? = (rs[i]?).map (toResponse key) := by
  show (rs.map (toResponse key))[i]? = _
  rw [List.getElem?_map]

theorem getSecretById_of_error {key : List Nat} {r : SecretRecord} {e : String}
    (h : decrypt key r.encrypted_content r.iv r.auth_tag = .error e) :
    getSecretById key (some r) = ⟨500, false, none, some "Internal server error"⟩ := by
  show (match decrypt key r.encrypted_content r.iv r.auth_tag with
    | Except.ok content =>
      (⟨200, true, some ⟨r.id, displayName r.name, content, r.created_at, r.updated_at⟩,
        none⟩ : SingleResponse)
    | Except.error _ => ⟨500, false, none, some "Internal server error"⟩) = _
  rw [h]

/-! ## Concrete instances used by witnesses and counterexamples -/

/-- A concrete 32-byte master key. -/
def k0 : List Nat := List.replicate 32 7

/-- A concrete 16-byte IV (as produced by `crypto.randomBytes(16)`). -/
def iv0 : List Nat := List.replicate 16 3

/-- The concrete plaintext "hi" as Unicode scalar values. -/
def pt0 : List Nat := [104, 105]

/-- The envelope obtained by encrypting `pt0` under `k0` with IV `iv0`. -/
def env0 : EncryptionResult := envelopeOf k0 iv0 pt0

/-- A concrete 12-byte IV. -/
def iv12 : List Nat := List.replicate 12 5

/-- Ciphertext of `pt0` under `k0` with the 12-byte IV. -/
def ct12 : List Nat := ctOf k0 iv12 pt0

/-- Tag of `ct12` under `k0` with the 12-byte IV. -/
def tag12 : List Nat := gcmTag k0 iv12 ct12

/-- A stored record whose plaintext is literally "[Decryption Error]". -/
def recGood : SecretRecord :=
  ⟨"id-1", some "alpha", (envelopeOf k0 iv0 decErrContent).encryptedContent,
    (envelopeOf k0 iv0 decErrContent).iv, (envelopeOf k0 iv0 decErrContent).authTag, "t1", "t2"⟩

/-- A corrupted stored record: valid ciphertext and IV of `env0` but an
all-zero authentication tag, so decryption fails. -/
def recBad : SecretRecord :=
  ⟨"id-2", some "beta", env0.encryptedContent, env0.iv, hexEncode (List.replicate 16 0),
    "t3", "t4"⟩

/-- The 64-zero hex key string. -/
def zeroKey64 : String := "0000000000000000000000000000000000000000000000000000000000000000"

/-- The 64-zero hex key string followed by two invalid hex characters. -/
def zeroKey64zz : String := "0000000000000000000000000000000000000000000000000000000000000000zz"

/-! ## The claims -/

/-- C1: for every UTF-8 plaintext string `s` of length 0 to 10000 characters
(including the empty string) and any fixed 32-byte master key, decrypting the
envelope produced by `encrypt s` with the same key returns `s` exactly,
byte for byte. -/
theorem c1_round_trip (key iv s : List Nat) (r : EncryptionResult)
    (hk : key.length = 32) (hiv : iv.length = 16) (hivb : ValidBytes iv)
    (hs : ValidScalars s) (hlen : s.length ≤ 10000)
    (he : encrypt key iv s = .ok r) :
    decrypt key r.encryptedContent r.iv r.authTag = .ok s := by
  rw [encrypt_ok s hk (by omega)] at he
  cases he
  exact decrypt_envelope s hk hiv hivb hs

/-- Witness for C1 at a nonempty plaintext and at the empty plaintext. -/
theorem c1_round_trip_witness :
    decrypt k0 env0.encryptedContent env0.iv env0.authTag = .ok pt0 ∧
    decrypt k0 (envelopeOf k0 iv0 []).encryptedContent (envelopeOf k0 iv0 []).iv
      (envelopeOf k0 iv0 []).authTag = .ok ([] : List Nat) :=
  ⟨c1_round_trip k0 iv0 pt0 env0 (by decide) (by decide) (by decide) (by decide)
    (by decide) rfl,
   c1_round_trip k0 iv0 [] (envelopeOf k0 iv0 []) (by decide) (by decide) (by decide)
    (by decide) (by decide) rfl⟩

/-- C2: for every envelope produced by `encrypt` under a key, flipping any
single bit of the ciphertext, the nonce, or the authTag before calling
`decrypt` with the same key makes `decrypt` fail with the `DecryptionError`
message; no (altered) plaintext is returned. -/
theorem c2_tamper_detection (key iv s : List Nat) (r : EncryptionResult)
    (hk : key.length = 32) (hiv : iv.length = 16) (hivb : ValidBytes iv)
    (hs : ValidScalars s) (he : encrypt key iv s = .ok r) (t j : Nat) (hj : j < 8) :
    (t < (hexDecodeNode r.encryptedContent).length →
      decrypt key (hexEncode (flipByteAt (hexDecodeNode r.encryptedContent) t j)) r.iv
        r.authTag = .error decFailMsg) ∧
    (t < 16 →
      decrypt key r.encryptedContent (hexEncode (flipByteAt (hexDecodeNode r.iv) t j))
        r.authTag = .error decFailMsg) ∧
    (t < 16 →
      decrypt key r.encryptedContent r.iv
        (hexEncode (flipByteAt (hexDecodeNode r.authTag) t j)) = .error decFailMsg) := by
  rw [encrypt_ok s hk (by omega)] at he
  cases he
  refine ⟨?_, ?_, ?_⟩
  · intro ht
    simp only [envelopeOf] at ht ⊢
    rw [hexDecode_hexEncode (ctOf_validBytes key iv hs)] at ht ⊢
    exact decrypt_flipped_ct hivb hs ht hj
  · intro ht
    simp only [envelopeOf]
    rw [hexDecode_hexEncode hivb]
    exact decrypt_flipped_nonce hivb hs (by omega) hj
  · intro ht
    simp only [envelopeOf]
    rw [hexDecode_hexEncode (gcmTag_validBytes key iv _)]
    exact decrypt_flipped_tag hivb hs ht hj

/-- Witness for C2: flipping the lowest bit of the first byte of each field
of a concrete envelope makes decryption fail. -/
theorem c2_tamper_detection_witness :
    decrypt k0 (hexEncode (flipByteAt (hexDecodeNode env0.encryptedContent) 0 0)) env0.iv
      env0.authTag = .error decFailMsg ∧
    decrypt k0 env0.encryptedContent (hexEncode (flipByteAt (hexDecodeNode env0.iv) 0 0))
      env0.authTag = .error decFailMsg ∧
    decrypt k0 env0.encryptedContent env0.iv
      (hexEncode (flipByteAt (hexDecodeNode env0.authTag) 0 0)) = .error decFailMsg := by
  have h := c2_tamper_detection k0 iv0 pt0 env0 (by decide) (by decide) (by decide)
    (by decide) rfl 0 0 (by decide)
  exact ⟨h.1 (by decide), h.2.1 (by decide), h.2.2 (by decide)⟩

/-- C3 counterexample: the claim says a key string that is not valid hex is
rejected with `ConfigurationError`; but the 64-zero key followed by the two
invalid hex characters "zz" is not valid hex and is nevertheless accepted,
because `Buffer.from(key, 'hex')` silently truncates at the first invalid
character and the 32-byte prefix passes the length check. -/
theorem c3_key_validation_counterexample :
    getEncryptionKey (some zeroKey64zz) = .ok (List.replicate 32 0) ∧
    ¬ IsHexStr (strCodes zeroKey64zz) :=
  ⟨rfl, by decide⟩

/-- C3 (amended): initialization fails with `ConfigurationError` exactly when
the key is absent or empty, or the byte string obtained by Node hex decoding
(truncating at the first invalid character) is not exactly 32 bytes; any
string whose decoded prefix is 32 bytes is accepted, including the all-zero
64-hex-character key. -/
theorem c3_key_validation :
    getEncryptionKey none = .error keyMissingMsg ∧
    getEncryptionKey (some "") = .error keyMissingMsg ∧
    (∀ s : String, s ≠ "" → (hexDecodeNode (strCodes s)).length = 32 →
      getEncryptionKey (some s) = .ok (hexDecodeNode (strCodes s))) ∧
    (∀ s : String, s ≠ "" → (hexDecodeNode (strCodes s)).length ≠ 32 →
      getEncryptionKey (some s) = .error keyLengthMsg) ∧
    getEncryptionKey (some zeroKey64) = .ok (List.replicate 32 0) :=
  ⟨rfl, rfl, fun _ hs hl => getEncryptionKey_some_ok hs hl,
    fun _ hs hl => getEncryptionKey_some_error hs hl, rfl⟩

/-- Witness for C3: a valid 64-hex-character key is accepted, a short key is
rejected with the length error. -/
theorem c3_key_validation_witness :
    getEncryptionKey (some "ff00ff00ff00ff00ff00ff00ff00ff00ff00ff00ff00ff00ff00ff00ff00ff00")
      = .ok (hexDecodeNode (strCodes
        "ff00ff00ff00ff00ff00ff00ff00ff00ff00ff00ff00ff00ff00ff00ff00ff00")) ∧
    getEncryptionKey (some "abc") = .error keyLengthMsg :=
  ⟨c3_key_validation.2.2.1 _ (by decide) (by decide),
   c3_key_validation.2.2.2.1 "abc" (by decide) (by decide)⟩

/-- C4 counterexample: the claim says `decrypt` fails with `DecryptionError`
whenever an input is not valid hex or the decoded nonce or tag is not exactly
16 bytes; but (a) appending the invalid hex characters "zz" to a valid
ciphertext input leaves decryption successful, (b) a 12-byte nonce whose tag
matches decrypts successfully, and (c) the 16-byte tag truncated to its
first 12 bytes is also accepted and decrypts successfully. -/
theorem c4_malformed_input_counterexample :
    (decrypt k0 (env0.encryptedContent ++ [122, 122]) env0.iv env0.authTag = .ok pt0 ∧
      ¬ IsHexStr (env0.encryptedContent ++ [122, 122])) ∧
    (decrypt k0 (hexEncode ct12) (hexEncode iv12) (hexEncode tag12) = .ok pt0 ∧
      (hexDecodeNode (hexEncode iv12)).length = 12) ∧
    (decrypt k0 (hexEncode (ctOf k0 iv0 pt0)) (hexEncode iv0)
        (hexEncode ((gcmTag k0 iv0 (ctOf k0 iv0 pt0)).take 12)) = .ok pt0 ∧
      (hexDecodeNode (hexEncode ((gcmTag k0 iv0 (ctOf k0 iv0 pt0)).take 12))).length = 12) :=
  ⟨⟨rfl, by decide⟩, ⟨rfl, by decide⟩, ⟨rfl, by decide⟩⟩

/-- C4 (amended): for every call to `decrypt` with the cached 32-byte key,
the result is either a plaintext or the single `DecryptionError` message
(never an exception of another kind); inputs are hex-decoded by truncating
at the first invalid character, and the error occurs exactly when the
decoded nonce is empty, the decoded tag length is not an accepted GCM tag
length, or the tag does not match the recomputed tag truncated to its
length.  In particular the spec's scenario `decrypt("not-hex",
"alsonothex", "nope")` does fail with `DecryptionError`. -/
theorem c4_decrypt_error_characterisation (key a b c : List Nat) (hk : key.length = 32) :
    ((∃ pt, decrypt key a b c = .ok pt) ∨ decrypt key a b c = .error decFailMsg) ∧
    (∀ e, decrypt key a b c = .error e → e = decFailMsg) ∧
    (decrypt key a b c = .error decFailMsg ↔
      ¬(1 ≤ (hexDecodeNode b).length ∧ AllowedTagLen (hexDecodeNode c).length ∧
        hexDecodeNode c = (gcmTag key (hexDecodeNode b) (hexDecodeNode a)).take
          (hexDecodeNode c).length)) ∧
    decrypt key (strCodes "not-hex") (strCodes "alsonothex") (strCodes "nope")
      = .error decFailMsg :=
  ⟨decrypt_ok_or_error key a b c, fun _ he => decrypt_error_unique he,
    decrypt_error_iff hk a b c,
    decryptBytes_error (fun hc => by
      have h0 : (hexDecodeNode (strCodes "alsonothex")).length = 0 := by decide
      omega)⟩

/-- Witness for C4 at a concrete key and concrete malformed inputs. -/
theorem c4_decrypt_error_characterisation_witness :
    ((∃ pt, decrypt k0 [110] [111] [112] = .ok pt) ∨
      decrypt k0 [110] [111] [112] = .error decFailMsg) ∧
    decrypt k0 (strCodes "not-hex") (strCodes "alsonothex") (strCodes "nope")
      = .error decFailMsg :=
  ⟨(c4_decrypt_error_characterisation k0 [110] [111] [112] (by decide)).1,
   (c4_decrypt_error_characterisation k0 [110] [111] [112] (by decide)).2.2.2⟩

/-- C5 counterexample: the claim says every read operation catches a
per-record `DecryptionError` and reports the record as unreadable; but in
the single-record read (`getSecretById`) a decryption failure is not caught
at the call site: it falls through to the generic handler and produces a
500 "Internal server error" response with no data, rather than a response
marking the record unreadable. -/
theorem c5_per_record_recovery_counterexample :
    decrypt k0 recBad.encrypted_content recBad.iv recBad.auth_tag = .error decFailMsg ∧
    getSecretById k0 (some recBad) = ⟨500, false, none, some "Internal server error"⟩ :=
  ⟨rfl, rfl⟩

/-- C5 (amended): in the list operation (`getAllSecrets`) each record is
mapped independently — the response entry at index `i` depends only on the
stored record at index `i` — and a record whose decryption fails is returned
with the placeholder content while successfully decrypted records pass
through unchanged; in the single-record read (`getSecretById`), however, a
decryption failure is not caught at the call site and yields the generic
500 "Internal server error" response. -/
theorem c5_per_record_recovery :
    (∀ (key : List Nat) (rs : List SecretRecord) (i : Nat),
      (getAllSecrets key rs).data[i]? = (rs[i]?).map (toResponse key)) ∧
    (∀ (key : List Nat) (r : SecretRecord) (e : String),
      decrypt key r.encrypted_content r.iv r.auth_tag = .error e →
      toResponse key r = ⟨r.id, displayName r.name, decErrContent, r.created_at,
        r.updated_at⟩) ∧
    (∀ (key : List Nat) (r : SecretRecord) (pt : List Nat),
      decrypt key r.encrypted_content r.iv r.auth_tag = .ok pt →
      toResponse key r = ⟨r.id, displayName r.name, pt, r.created_at, r.updated_at⟩) ∧
    (∀ (key : List Nat) (r : SecretRecord) (e : String),
      decrypt key r.encrypted_content r.iv r.auth_tag = .error e →
      getSecretById key (some r) = ⟨500, false, none, some "Internal server error"⟩) :=
  ⟨getAllSecrets_data, fun _ _ _ h => toResponse_of_error h,
    fun _ _ _ h => toResponse_of_ok h, fun _ _ _ h => getSecretById_of_error h⟩

/-- Witness for C5: in a concrete two-record listing, the corrupted record
is reported with the placeholder and the healthy record with its plaintext. -/
theorem c5_per_record_recovery_witness :
    (getAllSecrets k0 [recGood, recBad]).data[1]? =
      ([recGood, recBad][1]?).map (toResponse k0) ∧
    toResponse k0 recBad = ⟨recBad.id, displayName recBad.name, decErrContent,
      recBad.created_at, recBad.updated_at⟩ ∧
    toResponse k0 recGood = ⟨recGood.id, displayName recGood.name, decErrContent,
      recGood.created_at, recGood.updated_at⟩ ∧
    getSecretById k0 (some recBad) = ⟨500, false, none, some "Internal server error"⟩ :=
  ⟨c5_per_record_recovery.1 k0 [recGood, recBad] 1,
   c5_per_record_recovery.2.1 k0 recBad decFailMsg rfl,
   c5_per_record_recovery.2.2.1 k0 recGood decErrContent rfl,
   c5_per_record_recovery.2.2.2 k0 recBad decFailMsg rfl⟩

/-- C7: for every plaintext, the envelope returned by `encrypt` has a
hex-decoded ciphertext of exactly the byte length of the UTF-8 encoding of
the plaintext (no padding), a hex-decoded nonce of exactly 16 bytes, a
hex-decoded authTag of exactly 16 bytes, and all three fields are
hex-encoded character strings. -/
theorem c7_envelope_shape (key iv s : List Nat) (r : EncryptionResult)
    (hk : key.length = 32) (hiv : iv.length = 16) (hivb : ValidBytes iv)
    (hs : ValidScalars s) (he : encrypt key iv s = .ok r) :
    (hexDecodeNode r.encryptedContent).length = (utf8Encode s).length ∧
    (hexDecodeNode r.iv).length = 16 ∧
    (hexDecodeNode r.authTag).length = 16 ∧
    IsHexStr r.encryptedContent ∧ IsHexStr r.iv ∧ IsHexStr r.authTag := by
  rw [encrypt_ok s hk (by omega)] at he
  cases he
  simp only [envelopeOf]
  rw [hexDecode_hexEncode (ctOf_validBytes key iv hs), hexDecode_hexEncode hivb,
    hexDecode_hexEncode (gcmTag_validBytes key iv _)]
  exact ⟨ctOf_length key iv s, hiv, gcmTag_length key iv _,
    hexEncode_isHexStr (ctOf_validBytes key iv hs), hexEncode_isHexStr hivb,
    hexEncode_isHexStr (gcmTag_validBytes key iv _)⟩

/-- Witness for C7 at a concrete envelope. -/
theorem c7_envelope_shape_witness :
    (hexDecodeNode env0.encryptedContent).length = (utf8Encode pt0).length ∧
    (hexDecodeNode env0.iv).length = 16 ∧
    (hexDecodeNode env0.authTag).length = 16 ∧
    IsHexStr env0.encryptedContent ∧ IsHexStr env0.iv ∧ IsHexStr env0.authTag :=
  c7_envelope_shape k0 iv0 pt0 env0 (by decide) (by decide) (by decide) (by decide) rfl

/-- C8: `decrypt` is deterministic — two runs on identical inputs with the
same cached key produce the same outcome — and every failure carries the
single `DecryptionError` message. -/
theorem c8_decrypt_deterministic (key a b c : List Nat)
    (r1 r2 : Except String (List Nat))
    (h1 : r1 = decrypt key a b c) (h2 : r2 = decrypt key a b c) :
    r1 = r2 ∧ (∀ e, r1 = .error e → e = decFailMsg) := by
  subst h1
  subst h2
  exact ⟨rfl, fun _ he => decrypt_error_unique he⟩

/-- Witness for C8 at concrete inputs. -/
theorem c8_decrypt_deterministic_witness :
    decrypt k0 [110] [111] [112] = decrypt k0 [110] [111] [112] ∧
    (∀ e, decrypt k0 [110] [111] [112] = .error e → e = decFailMsg) :=
  c8_decrypt_deterministic k0 [110] [111] [112] _ _ rfl rfl

/-- C9: given a valid cached 32-byte key (and the 16-byte random IV that
`crypto.randomBytes` supplies), `encrypt` never throws for any plaintext:
it always returns an `EncryptionResult`, so the catch clause rethrowing
"Failed to encrypt data" is unreachable. -/
theorem c9_encrypt_total (key iv s : List Nat) (hk : key.length = 32)
    (hiv : iv.length = 16) :
    encrypt key iv s = .ok (envelopeOf key iv s) ∧
    ∀ e, encrypt key iv s ≠ .error e := by
  have h : encrypt key iv s = .ok (envelopeOf key iv s) := encrypt_ok s hk (by omega)
  exact ⟨h, fun e he => by rw [h] at he; exact Except.noConfusion he⟩

/-- Witness for C9 at a concrete key, IV and plaintext. -/
theorem c9_encrypt_total_witness :
    encrypt k0 iv0 pt0 = .ok (envelopeOf k0 iv0 pt0) ∧
    ∀ e, encrypt k0 iv0 pt0 ≠ .error e :=
  c9_encrypt_total k0 iv0 pt0 (by decide) (by decide)

/-- C10: in the list operation a record whose decryption fails is returned
with content "[Decryption Error]", and there is a plaintext — the string
"[Decryption Error]" itself — for which a successfully decrypted record is
indistinguishable in the response from a corrupted record: a concrete
listing of one healthy record storing that string and one corrupted record
returns the identical content for both. -/
theorem c10_decryption_error_marker :
    (∀ (key : List Nat) (r : SecretRecord) (e : String),
      decrypt key r.encrypted_content r.iv r.auth_tag = .error e →
      toResponse key r = ⟨r.id, displayName r.name, decErrContent, r.created_at,
        r.updated_at⟩) ∧
    (getAllSecrets k0 [recGood, recBad]).data.map SecretResponse.content =
      [decErrContent, decErrContent] ∧
    decrypt k0 recGood.encrypted_content recGood.iv recGood.auth_tag = .ok decErrContent ∧
    decrypt k0 recBad.encrypted_content recBad.iv recBad.auth_tag = .error decFailMsg :=
  ⟨fun _ _ _ h => toResponse_of_error h, rfl, rfl, rfl⟩

/-- Witness for C10 at the concrete corrupted record. -/
theorem c10_decryption_error_marker_witness :
    toResponse k0 recBad = ⟨recBad.id, displayName recBad.name, decErrContent,
      recBad.created_at, recBad.updated_at⟩ :=
  c10_decryption_error_marker.1 k0 recBad decFailMsg rfl
